import Mathlib

/-!
Shallow embedding of the `json_parsing` Rust crate (src/lib.rs, src/tokenize.rs,
src/parse.rs, src/value.rs) and proofs about the claims of its specification.

Modelling conventions:
* Rust `Vec<char>` / `&[char]` become `List Char`; indices stay `Nat`, and the
  unchecked Rust indexing `chars[i]` is modelled by `chars[i]?` where the
  `none` arm is a `panicked` outcome (a Rust index-out-of-bounds panic).
  `todo!()` in the source is likewise modelled as `panicked`.
* Rust `f64` is modelled by exact rationals: no claim under study depends on
  rounding, only on which numeric strings the `str -> f64` conversion accepts.
* `HashMap<String, Value>` is modelled by an association list together with an
  overwriting insert, which matches the observable lookup behaviour of
  `HashMap::insert` (last write wins).
* Loops over an integer index are written with an explicit `fuel` argument so
  that every definition is structurally recursive and kernel-reducible; each
  wrapper passes `length + 1` fuel, which is sufficient because every loop
  advances its index by at least one per iteration and stops at `length`.
  The `fuel = 0` arm is unreachable for those wrappers.
-/

/-- Outcome of running a piece of Rust code: a normal value, an error returned
through the `Result` channel, or a panic (index out of bounds, `todo!()`). -/
inductive Outcome (ε : Type) (α : Type) where
  | ok : α → Outcome ε α
  | err : ε → Outcome ε α
  | panicked : Outcome ε α
deriving Repr, DecidableEq

/-- The token type of src/tokenize.rs.  The payload of `Number` is the exact
rational denoted by the numeric literal (the source stores an `f64`). -/
inductive Token where
  | leftBrace
  | rightBrace
  | leftBracket
  | rightBracket
  | comma
  | colon
  | null
  | false
  | true
  | number (q : ℚ)
  | string (s : List Char)
deriving Repr, DecidableEq

/-- The error enum `TokenizeError` of src/tokenize.rs.  The payload of Rust's
`ParseNumberError(ParseFloatError)` carries no information used anywhere, so it
is dropped. -/
inductive TokenizeError where
  | unfinishedLiteralValue
  | parseNumberError
  | unclosedQuotes
  | unexpectedEof
  | charNotRecognized (c : Char)
deriving Repr, DecidableEq

/-- The error enum `TokenParseError` of src/parse.rs. -/
inductive TokenParseError where
  | unfinishedEscape
  | invalidHexValue
  | invalidCodePointValue
  | expectedComma
  | expectedColon
  | expectedProperty
deriving Repr, DecidableEq

/-- The value tree of src/value.rs.  `Object` is an association list standing
for the `HashMap` (see the header comment). -/
inductive Value where
  | null
  | boolean (b : Bool)
  | string (s : List Char)
  | number (q : ℚ)
  | array (vs : List Value)
  | object (m : List (List Char × Value))

/-- Rust `char::is_ascii_whitespace`: space, tab, newline, form feed (U+000C),
carriage return. -/
def isAsciiWhitespace (c : Char) : Bool :=
  c = ' ' || c = '\t' || c = '\n' || c = Char.ofNat 12 || c = '\r'

/-- Numeric value of a run of ASCII digits. -/
def digitsToNat (ds : List Char) : Nat :=
  ds.foldl (fun acc c => 10 * acc + (c.toNat - 48)) 0

/-- The `str -> f64` conversion used by `tokenize_float` (`unparsed_num.parse()`),
restricted to the character set `0-9 . e E + -` that `tokenize_float` can emit
(so the `inf`/`nan` forms of the Rust grammar are unreachable and omitted).
Rust's grammar: optional sign, digits with at most one dot (at least one digit
overall), then an optional exponent `e|E`, optional sign, at least one digit.
The numeric value is returned as an exact rational. -/
def parseRustFloat (s : List Char) : Option ℚ :=
  let (neg, s1) :=
    match s with
    | '-' :: rest => (Bool.true, rest)
    | '+' :: rest => (Bool.false, rest)
    | _ => (Bool.false, s)
  let intDs := s1.takeWhile (fun c : Char => c.isDigit)
  let s2 := s1.dropWhile (fun c : Char => c.isDigit)
  let (fracDs, s4) :=
    match s2 with
    | '.' :: s3 => (s3.takeWhile (fun c : Char => c.isDigit), s3.dropWhile (fun c : Char => c.isDigit))
    | _ => (([] : List Char), s2)
  if intDs = [] ∧ fracDs = [] then none
  else
    let mant : ℚ := (digitsToNat intDs : ℚ) + (digitsToNat fracDs : ℚ) / (10 : ℚ) ^ fracDs.length
    let signedMant := if neg then -mant else mant
    match s4 with
    | [] => some signedMant
    | e :: s5 =>
      if e = 'e' ∨ e = 'E' then
        let (eneg, s6) :=
          match s5 with
          | '-' :: rest => (Bool.true, rest)
          | '+' :: rest => (Bool.false, rest)
          | _ => (Bool.false, s5)
        let expDs := s6.takeWhile (fun c : Char => c.isDigit)
        let s7 := s6.dropWhile (fun c : Char => c.isDigit)
        if expDs = [] ∨ s7 ≠ [] then none
        else
          let scale : ℚ := (10 : ℚ) ^ digitsToNat expDs
          some (if eneg then signedMant / scale else signedMant * scale)
      else none

/-- The whitespace-skipping loop at the head of `make_token`.  The initial
read `chars[*index]` is an unchecked index (panic when out of bounds); inside
the loop, stepping past the end yields `UnexpectedEof`. -/
def skipWs (fuel : Nat) (chars : List Char) (index : Nat) : Outcome TokenizeError Nat :=
  match fuel with
  | 0 => .panicked
  | fuel + 1 =>
    match chars[index]? with
    | none => .panicked
    | some ch =>
      if isAsciiWhitespace ch then
        if index + 1 < chars.length then skipWs fuel chars (index + 1)
        else .err .unexpectedEof
      else .ok index

/-- The shared shape of `tokenize_null` / `tokenize_false` / `tokenize_true`:
match the keyword characters one by one with unchecked indexing (running past
the end of the input is a panic), then step the index back by one. -/
def tokenizeLit (chars : List Char) (index : Nat) (lit : List Char) (tok : Token) :
    Outcome TokenizeError (Token × Nat) :=
  match lit with
  | [] => .ok (tok, index - 1)
  | c :: rest =>
    match chars[index]? with
    | none => .panicked
    | some ch =>
      if ch = c then tokenizeLit chars (index + 1) rest tok
      else .err .unfinishedLiteralValue

/-- Rust `tokenize_null`. -/
def tokenizeNull (chars : List Char) (index : Nat) : Outcome TokenizeError (Token × Nat) :=
  tokenizeLit chars index ['n', 'u', 'l', 'l'] .null

/-- Rust `tokenize_false`. -/
def tokenizeFalse (chars : List Char) (index : Nat) : Outcome TokenizeError (Token × Nat) :=
  tokenizeLit chars index ['f', 'a', 'l', 's', 'e'] .false

/-- Rust `tokenize_true`. -/
def tokenizeTrue (chars : List Char) (index : Nat) : Outcome TokenizeError (Token × Nat) :=
  tokenizeLit chars index ['t', 'r', 'u', 'e'] .true

/-- The scanning loop of `tokenize_float`.  The guards transcribe the Rust
match arms literally, including Rust's `&&`-over-`||` precedence: the arm for
exponent markers is `c == 'e' || (c == 'E' && !has_exp)` and the arm for signs
is `c == '-' || (c == '+' && has_exp && !has_sign_after_exp)`. -/
def tokenizeFloatLoop (fuel : Nat) (chars : List Char) (index : Nat) (acc : List Char)
    (hasDecimal hasExp hasSignAfterExp : Bool) : List Char × Nat :=
  match fuel with
  | 0 => (acc, index)
  | fuel + 1 =>
    match chars[index]? with
    | none => (acc, index)
    | some ch =>
      if ch.isDigit then
        tokenizeFloatLoop fuel chars (index + 1) (acc ++ [ch]) hasDecimal hasExp hasSignAfterExp
      else if ch = '.' ∧ hasDecimal = Bool.false then
        tokenizeFloatLoop fuel chars (index + 1) (acc ++ [ch]) Bool.true hasExp hasSignAfterExp
      else if ch = 'e' ∨ (ch = 'E' ∧ hasExp = Bool.false) then
        tokenizeFloatLoop fuel chars (index + 1) (acc ++ [ch]) hasDecimal Bool.true hasSignAfterExp
      else if ch = '-' ∨ (ch = '+' ∧ hasExp = Bool.true ∧ hasSignAfterExp = Bool.false) then
        tokenizeFloatLoop fuel chars (index + 1) (acc ++ [ch]) hasDecimal hasExp Bool.true
      else (acc, index)

/-- Rust `tokenize_float`: optional leading `-`, then the scanning loop, then
the string-to-float conversion; a conversion failure is `ParseNumberError`.
On success the returned index is the first unconsumed position (the source has
no `*index -= 1` here, unlike the literal scanners). -/
def tokenizeFloat (chars : List Char) (index : Nat) : Outcome TokenizeError (Token × Nat) :=
  match chars[index]? with
  | none => .panicked
  | some c0 =>
    let (acc0, i0) := if c0 = '-' then (['-'], index + 1) else (([] : List Char), index)
    let (num, i1) := tokenizeFloatLoop (chars.length + 1) chars i0 acc0 .false .false .false
    match parseRustFloat num with
    | some q => .ok (.number q, i1)
    | none => .err .parseNumberError

/-- The loop of `tokenize_string`: step the index, fail with `UnclosedQuotes`
past the end, stop at an unescaped `"` (left at the quote's index), push every
other character (including backslashes) verbatim while toggling the escape
flag. -/
def tokenizeStringLoop (fuel : Nat) (chars : List Char) (index : Nat) (acc : List Char)
    (isEscape : Bool) : Outcome TokenizeError (Token × Nat) :=
  match fuel with
  | 0 => .panicked
  | fuel + 1 =>
    match chars[index + 1]? with
    | none => .err .unclosedQuotes
    | some ch =>
      if ch = '"' ∧ isEscape = Bool.false then .ok (.string acc, index + 1)
      else if ch = '\\' ∧ isEscape = Bool.false then
        tokenizeStringLoop fuel chars (index + 1) (acc ++ [ch]) Bool.true
      else
        tokenizeStringLoop fuel chars (index + 1) (acc ++ [ch]) Bool.false

/-- Rust `tokenize_string` (entered with the index at the opening quote). -/
def tokenizeString (chars : List Char) (index : Nat) : Outcome TokenizeError (Token × Nat) :=
  tokenizeStringLoop (chars.length + 1) chars index [] .false

/-- Rust `make_token`: skip whitespace, then dispatch on the current
character.  Punctuation leaves the index on the punctuation character; the
sub-scanners return their own final index. -/
def makeToken (chars : List Char) (index : Nat) : Outcome TokenizeError (Token × Nat) :=
  match skipWs (chars.length + 1) chars index with
  | .err e => .err e
  | .panicked => .panicked
  | .ok i =>
    match chars[i]? with
    | none => .panicked
    | some ch =>
      if ch = Char.ofNat 123 then .ok (.leftBrace, i)
      else if ch = Char.ofNat 125 then .ok (.rightBrace, i)
      else if ch = '[' then .ok (.leftBracket, i)
      else if ch = ']' then .ok (.rightBracket, i)
      else if ch = ',' then .ok (.comma, i)
      else if ch = ':' then .ok (.colon, i)
      else if ch = 'n' then tokenizeNull chars i
      else if ch = 'f' then tokenizeFalse chars i
      else if ch = 't' then tokenizeTrue chars i
      else if ch.isDigit ∨ ch = '-' then tokenizeFloat chars i
      else if ch = '"' then tokenizeString chars i
      else .err (.charNotRecognized ch)

/-- The main loop of `tokenize`: while the index is in bounds, produce one
token and then advance the index one past the position `make_token` left it
at. -/
def tokenizeLoop (fuel : Nat) (chars : List Char) (index : Nat) (acc : List Token) :
    Outcome TokenizeError (List Token) :=
  match fuel with
  | 0 => .panicked
  | fuel + 1 =>
    if index < chars.length then
      match makeToken chars index with
      | .ok (t, j) => tokenizeLoop fuel chars (j + 1) (acc ++ [t])
      | .err e => .err e
      | .panicked => .panicked
    else .ok acc

/-- Rust `tokenize`. -/
def tokenize (input : List Char) : Outcome TokenizeError (List Token) :=
  tokenizeLoop (input.length + 1) input 0 []

/-- Hexadecimal value of a character, Rust `char::to_digit(16)`. -/
def hexVal (c : Char) : Option Nat :=
  if '0' ≤ c ∧ c ≤ '9' then some (c.toNat - 48)
  else if 'a' ≤ c ∧ c ≤ 'f' then some (c.toNat - 87)
  else if 'A' ≤ c ∧ c ≤ 'F' then some (c.toNat - 55)
  else none

/-- The escape-resolution loop of `parse_string` in src/parse.rs.  The `\u`
arm consumes the four following characters one at a time, failing with
`UnfinishedEscape` when the input runs out and `InvalidHexValue` on a non-hex
character, exactly in the order the source interleaves those two checks.  The
`f` arm pushes U+0012, transcribing the source's `'\u{12}'`. -/
def parseStringLoop (cs : List Char) (isEscaping : Bool) (acc : List Char) :
    Outcome TokenParseError (List Char) :=
  match cs with
  | [] => .ok acc
  | c :: rest =>
    if isEscaping then
      if c = '"' then parseStringLoop rest .false (acc ++ ['"'])
      else if c = '\\' then parseStringLoop rest .false (acc ++ ['\\'])
      else if c = 'b' then parseStringLoop rest .false (acc ++ [Char.ofNat 8])
      else if c = 'f' then parseStringLoop rest .false (acc ++ [Char.ofNat 18])
      else if c = 'n' then parseStringLoop rest .false (acc ++ ['\n'])
      else if c = 'r' then parseStringLoop rest .false (acc ++ ['\r'])
      else if c = 't' then parseStringLoop rest .false (acc ++ ['\t'])
      else if c = 'u' then
        match rest with
        | [] => .err .unfinishedEscape
        | d1 :: r1 =>
          match hexVal d1 with
          | none => .err .invalidHexValue
          | some v1 =>
            match r1 with
            | [] => .err .unfinishedEscape
            | d2 :: r2 =>
              match hexVal d2 with
              | none => .err .invalidHexValue
              | some v2 =>
                match r2 with
                | [] => .err .unfinishedEscape
                | d3 :: r3 =>
                  match hexVal d3 with
                  | none => .err .invalidHexValue
                  | some v3 =>
                    match r3 with
                    | [] => .err .unfinishedEscape
                    | d4 :: r4 =>
                      match hexVal d4 with
                      | none => .err .invalidHexValue
                      | some v4 =>
                        let sum := 4096 * v1 + 256 * v2 + 16 * v3 + v4
                        if Nat.isValidChar sum then
                          parseStringLoop r4 .false (acc ++ [Char.ofNat sum])
                        else .err .invalidCodePointValue
      else parseStringLoop rest .false (acc ++ [c])
    else if c = '\\' then parseStringLoop rest .true acc
    else parseStringLoop rest .false (acc ++ [c])

/-- Rust `parse_string`: resolve the escapes of a raw string token. -/
def parseString (s : List Char) : Outcome TokenParseError Value :=
  match parseStringLoop s .false [] with
  | .ok content => .ok (.string content)
  | .err e => .err e
  | .panicked => .panicked

/-- Overwriting insertion into the association list standing for the Rust
`HashMap`: replace the binding of an existing key in place, append a fresh
key at the end.  This is the observable behaviour of `HashMap::insert`. -/
def insertKV (m : List (List Char × Value)) (k : List Char) (v : Value) :
    List (List Char × Value) :=
  match m with
  | [] => [(k, v)]
  | (k', v') :: rest => if k' = k then (k, v) :: rest else (k', v') :: insertKV rest k v

/-- Lookup in the association list standing for the Rust `HashMap`. -/
def lookupKV (m : List (List Char × Value)) (k : List Char) : Option Value :=
  match m with
  | [] => none
  | (k', v') :: rest => if k' = k then some v' else lookupKV rest k

mutual

/-- Rust `parse_tokens`.  `fuel` bounds the recursion depth so the definition
is structurally recursive; `parse` below passes enough fuel for every input
(each unit of fuel spent corresponds to at least one token consumed), and the
theorems quantify over `fuel`.  Reading `tokens[*index]` is unchecked in the
source, hence the `panicked` arm, and the catch-all arm of the source's match
is `todo!()`, a panic. -/
def parseTokens (fuel : Nat) (tokens : List Token) (index : Nat) :
    Outcome TokenParseError (Value × Nat) :=
  match fuel with
  | 0 => .panicked
  | fuel + 1 =>
    match tokens[index]? with
    | none => .panicked
    | some t =>
      match t with
      | .null => .ok (.null, index + 1)
      | .false => .ok (.boolean .false, index + 1)
      | .true => .ok (.boolean .true, index + 1)
      | .number q => .ok (.number q, index + 1)
      | .string s =>
        match parseString s with
        | .ok v => .ok (v, index + 1)
        | .err e => .err e
        | .panicked => .panicked
      | .leftBracket => parseArrayLoop fuel tokens index []
      | .leftBrace => parseObjectLoop fuel tokens index []
      | _ => .panicked

/-- The loop of Rust `parse_array`, entered with the index at `[` or at the
`,` ending the previous iteration; `acc` is the vector built so far. -/
def parseArrayLoop (fuel : Nat) (tokens : List Token) (index : Nat) (acc : List Value) :
    Outcome TokenParseError (Value × Nat) :=
  match fuel with
  | 0 => .panicked
  | fuel + 1 =>
    match tokens[index + 1]? with
    | none => .panicked
    | some t =>
      if t = .rightBracket then .ok (.array acc, index + 2)
      else
        match parseTokens fuel tokens (index + 1) with
        | .ok (v, j) =>
          match tokens[j]? with
          | none => .panicked
          | some t2 =>
            match t2 with
            | .comma => parseArrayLoop fuel tokens j (acc ++ [v])
            | .rightBracket => .ok (.array (acc ++ [v]), j + 1)
            | _ => .err .expectedComma
        | .err e => .err e
        | .panicked => .panicked

/-- The loop of Rust `parse_object`, entered with the index at the opening
brace or at the `,` ending the previous iteration; `m` is the map built so
far. -/
def parseObjectLoop (fuel : Nat) (tokens : List Token) (index : Nat)
    (m : List (List Char × Value)) : Outcome TokenParseError (Value × Nat) :=
  match fuel with
  | 0 => .panicked
  | fuel + 1 =>
    match tokens[index + 1]? with
    | none => .panicked
    | some t =>
      if t = .rightBrace then .ok (.object m, index + 2)
      else
        match t with
        | .string key =>
          match tokens[index + 2]? with
          | none => .panicked
          | some t2 =>
            if t2 = .colon then
              match parseTokens fuel tokens (index + 3) with
              | .ok (v, j) =>
                match tokens[j]? with
                | none => .panicked
                | some t3 =>
                  match t3 with
                  | .comma => parseObjectLoop fuel tokens j (insertKV m key v)
                  | .rightBrace => .ok (.object (insertKV m key v), j + 1)
                  | _ => .err .expectedComma
              | .err e => .err e
              | .panicked => .panicked
            else .err .expectedColon
        | _ => .err .expectedProperty

end

/-- The unified error enum `ParseError` of src/lib.rs. -/
inductive ParseError where
  | tokenizeError (e : TokenizeError)
  | parseError (e : TokenParseError)
deriving Repr, DecidableEq

/-- Rust `parse` in src/lib.rs: scan, then parse the token sequence from
cursor 0.  The fuel `tokens.length + 1` is sufficient for every token
sequence, since each unit of fuel spent corresponds to at least one consumed
token. -/
def parse (input : List Char) : Outcome ParseError Value :=
  match tokenize input with
  | .err e => .err (.tokenizeError e)
  | .panicked => .panicked
  | .ok tokens =>
    match parseTokens (tokens.length + 1) tokens 0 with
    | .ok (v, _) => .ok v
    | .err e => .err (.parseError e)
    | .panicked => .panicked

/-- Spec-side description of string scanning (for the refinement claim about
`tokenize_string`): walk the characters after the opening quote with an escape
flag; an unescaped `"` closes the string and the characters before it are the
raw content, copied verbatim; running out of characters first means the string
is unclosed (`none`). -/
def specScanString (cs : List Char) (esc : Bool) : Option (List Char) :=
  match cs with
  | [] => none
  | c :: rest =>
    if esc then (specScanString rest .false).map (fun s => c :: s)
    else if c = '"' then some []
    else if c = '\\' then (specScanString rest .true).map (fun s => c :: s)
    else (specScanString rest .false).map (fun s => c :: s)

/-- Spec-side extraction of the key/value bindings of an object body in source
order (for the last-write-wins claim): it follows `parse_object`'s loop but
returns the list of bindings in the order they are parsed instead of folding
them into a map. -/
def objectBindings (fuel : Nat) (tokens : List Token) (index : Nat) :
    Outcome TokenParseError (List (List Char × Value) × Nat) :=
  match fuel with
  | 0 => .panicked
  | fuel + 1 =>
    match tokens[index + 1]? with
    | none => .panicked
    | some t =>
      if t = .rightBrace then .ok ([], index + 2)
      else
        match t with
        | .string key =>
          match tokens[index + 2]? with
          | none => .panicked
          | some t2 =>
            if t2 = .colon then
              match parseTokens fuel tokens (index + 3) with
              | .ok (v, j) =>
                match tokens[j]? with
                | none => .panicked
                | some t3 =>
                  match t3 with
                  | .comma =>
                    match objectBindings fuel tokens j with
                    | .ok (ps, j2) => .ok ((key, v) :: ps, j2)
                    | .err e => .err e
                    | .panicked => .panicked
                  | .rightBrace => .ok ([(key, v)], j + 1)
                  | _ => .err .expectedComma
              | .err e => .err e
              | .panicked => .panicked
            else .err .expectedColon
        | _ => .err .expectedProperty

/-- The last value bound to a key in a list of source-ordered bindings. -/
def lastValue (ps : List (List Char × Value)) (k : List Char) : Option Value :=
  match ps with
  | [] => none
  | p :: rest =>
    match lastValue rest k with
    | some v => some v
    | none => if p.1 = k then some p.2 else none

/-- Spec-side description of where a successful `parse_tokens` call leaves
the cursor, by the kind of token it started on: one past the token itself for
the five leaf tokens, one past a closing bracket or brace for arrays and
objects. -/
def finalCursorSpec (tokens : List Token) (index j : Nat) : Prop :=
  match tokens[index]? with
  | some .leftBracket => tokens[j - 1]? = some .rightBracket
  | some .leftBrace => tokens[j - 1]? = some .rightBrace
  | some _ => j = index + 1
  | none => True

/-! Sanity checks evaluating the embedding on the concrete inputs of the
source test suite and of the claims. -/

example : tokenize ",".toList = .ok [.comma] := by decide
example : tokenize "null".toList = .ok [.null] := by decide
example : tokenize "true,".toList = .ok [.true, .comma] := by decide
example : ∃ q, tokenize "123".toList = .ok [.number q] := ⟨_, rfl⟩
example : ∃ a b, tokenize "-123.456e-2".toList = .ok [.number a] ∧
    parseRustFloat "-123.456e-2".toList = some b := ⟨_, _, rfl, rfl⟩
example : parse "".toList = .panicked := by rfl
example : parse ",".toList = .panicked := by rfl
example : tokenize "tru".toList = .panicked := by rfl
example : tokenize "\"unclosed".toList = .err .unclosedQuotes := by rfl
example : parse "[1,2".toList = .err (.parseError .expectedComma) := by rfl
example : parse "null true".toList = .ok .null := by rfl
example : parse "null".toList = .ok .null := by rfl
example : parse "[]".toList = .ok (.array []) := by rfl
example : parseString ['\\', 'f'] = .ok (.string [Char.ofNat 18]) := by rfl
example : parseString ['\\', 'q'] = .ok (.string ['q']) := by rfl
-- The nested-structure test of the source's test suite,
-- `{ "a": [true, { "b": true }] }`, stated on the token sequence.
example :
    parseTokens 14
      [.leftBrace, .string ['a'], .colon, .leftBracket, .true, .comma, .leftBrace,
        .string ['b'], .colon, .true, .rightBrace, .rightBracket, .rightBrace] 0 =
      .ok (.object [(['a'],
        .array [.boolean .true, .object [(['b'], .boolean .true)]])], 13) := by rfl
-- After a number token the main scanning loop advances one past the first
-- unconsumed character (`tokenize_float` has no `*index -= 1`), so the `]`
-- after `16` is skipped and the parser runs off the end of the tokens.
example : parse "[null, 16]".toList = .panicked := by rfl
example : parseTokens 5 [.leftBracket, .null, .comma, .number 16, .rightBracket] 0 =
    .ok (.array [.null, .number 16], 5) := by rfl

/-! Claim theorems. -/

/-- C1: the claim says `parse` either returns a complete `Value` or exactly
one enumerated error value, and in particular never accesses an out-of-bounds
index, including on the empty input.  The code refutes this: on the empty
input, `tokenize` returns an empty token sequence and `parse_tokens` reads
`tokens[0]` without a bounds check, which panics. -/
theorem parse_empty_input_panics : parse "".toList = .panicked := by rfl

/-- C2: the claim says a token that cannot begin a value (`RightBrace`,
`RightBracket`, `Comma`, `Colon`) at a value position yields a dedicated
structural error (`UnexpectedToken`-like).  The code refutes this: the
catch-all arm of `parse_tokens` is `todo!()`, a panic, and `TokenParseError`
has no such variant; the input `,` reaches that arm. -/
theorem parse_comma_value_position_panics : parse ",".toList = .panicked := by rfl

/-- C3: the claim says a `-` after the start of a number is consumed only
right after an exponent marker and a second exponent marker is never
consumed, so `1-2` scans as the tokens `Number(1.0)`, `Number(-2.0)`.  The
code refutes this: Rust parses the guards as
`c == '-' || (c == '+' && has_exp && ...)` and `c == 'e' || (c == 'E' && !has_exp)`,
so `-` and a lowercase second `e` are always consumed, making the accumulated
strings `1-2` and `1e2e3` fail float conversion with `ParseNumberError`. -/
theorem tokenize_minus_inside_number_error :
    tokenize "1-2".toList = .err .parseNumberError ∧
    tokenize "1e2e3".toList = .err .parseNumberError := by
  exact ⟨rfl, rfl⟩

/-- C4: the claim says escape resolution maps `\f` to form feed U+000C.  The
code refutes this single entry of the table: the source pushes `'\u{12}'`,
which is U+0012, not U+000C (the other entries match the claim). -/
theorem parse_string_f_escape_wrong_char :
    parseString ['\\', 'f'] = .ok (.string [Char.ofNat 18]) ∧
    Char.ofNat 18 ≠ Char.ofNat 12 := by
  exact ⟨rfl, by decide⟩

/-- C5: the claim says any mismatch while matching `null`/`false`/`true`,
including running past the end of the input, yields `UnfinishedLiteralValue`.
The code refutes the past-the-end part: on `tru` the literal scanner indexes
`chars[3]` out of bounds and panics.  An in-bounds mismatch such as `trx`
does yield `UnfinishedLiteralValue`. -/
theorem tokenize_tru_panics :
    tokenize "tru".toList = .panicked ∧
    tokenize "trx".toList = .err .unfinishedLiteralValue := by
  exact ⟨rfl, rfl⟩

/-- C10: `parse` never checks that the token sequence was fully consumed:
whenever a prefix of the tokens parses to a value, that value is returned and
the remaining tokens are ignored; concretely, `null true` parses to `Null`. -/
theorem parse_ignores_trailing_tokens :
    (∀ input tokens v j, tokenize input = .ok tokens →
      parseTokens (tokens.length + 1) tokens 0 = .ok (v, j) →
      parse input = .ok v) ∧
    parse "null true".toList = .ok .null := by
  constructor
  · intro input tokens v j h1 h2
    simp only [parse, h1, h2]
  · rfl

/-- Closed instantiation of the first part of C10's theorem. -/
theorem parse_ignores_trailing_tokens_witness : parse "null true".toList = .ok .null :=
  parse_ignores_trailing_tokens.1 "null true".toList [.null, .true] .null 1 (by rfl) (by rfl)

/-- C6: parsing `[1,2` (missing closing bracket) returns `ExpectedComma`, and
in general, after an array element has been parsed inside the array loop, a
present next token that is neither `Comma` nor `RightBracket` yields
`ExpectedComma`.  (On `[1,2` the token sequence is `[`, `Number 1`,
`Number 2` — the scanner's post-number skip drops the comma — and the second
number triggers the `ExpectedComma` arm.) -/
theorem array_missing_bracket_expected_comma :
    parse "[1,2".toList = .err (.parseError .expectedComma) ∧
    (∀ fuel tokens index acc v j t,
      tokens[index + 1]? ≠ some Token.rightBracket →
      parseTokens fuel tokens (index + 1) = .ok (v, j) →
      tokens[j]? = some t → t ≠ Token.comma → t ≠ Token.rightBracket →
      parseArrayLoop (fuel + 1) tokens index acc = .err .expectedComma) := by
  refine ⟨by rfl, ?_⟩
  intro fuel tokens index acc v j t h1 h2 h3 h4 h5
  obtain ⟨f, rfl⟩ : ∃ f, fuel = f + 1 := by
    cases fuel with
    | zero => simp [parseTokens] at h2
    | succ f => exact ⟨f, rfl⟩
  obtain ⟨t0, ht0⟩ : ∃ t0, tokens[index + 1]? = some t0 := by
    cases h : tokens[index + 1]? with
    | none => simp [parseTokens, h] at h2
    | some t0 => exact ⟨t0, rfl⟩
  have hne : ¬(t0 = Token.rightBracket) := fun hh => h1 (hh ▸ ht0)
  simp only [parseArrayLoop, ht0, if_neg hne, h2, h3]

/-- Closed instantiation of the loop part of C6's theorem on the token
sequence of `[1,2`. -/
theorem array_missing_bracket_expected_comma_witness :
    parseArrayLoop 2 [Token.leftBracket, Token.number 1, Token.number 2] 0 [] =
      .err .expectedComma :=
  array_missing_bracket_expected_comma.2 1
    [Token.leftBracket, Token.number 1, Token.number 2] 0 [] (Value.number 1) 2
    (Token.number 2) (by decide) (by rfl) (by rfl) (by decide) (by decide)

/-- An index at which a list lookup succeeds is in bounds. -/
theorem getElemSomeLt {α : Type} (l : List α) (i : Nat) (a : α) (h : l[i]? = some a) :
    i < l.length := by
  by_contra hle
  rw [List.getElem?_eq_none (by omega)] at h
  exact absurd h (by simp)

/-- Joint fuel induction for the cursor contract of `parse_tokens`,
`parse_array` and `parse_object`: every successful call strictly advances the
cursor, leaves it within bounds, and leaves it one past the last consumed
token as described by `finalCursorSpec`. -/
theorem parseCursorAux : ∀ fuel : Nat,
    (∀ tokens index v j, parseTokens fuel tokens index = .ok (v, j) →
      index < j ∧ j ≤ tokens.length ∧ finalCursorSpec tokens index j) ∧
    (∀ tokens index acc v j, parseArrayLoop fuel tokens index acc = .ok (v, j) →
      index + 1 < j ∧ j ≤ tokens.length ∧ tokens[j - 1]? = some Token.rightBracket) ∧
    (∀ tokens index m v j, parseObjectLoop fuel tokens index m = .ok (v, j) →
      index + 1 < j ∧ j ≤ tokens.length ∧ tokens[j - 1]? = some Token.rightBrace) := by
  intro fuel
  induction fuel with
  | zero =>
    refine ⟨?_, ?_, ?_⟩
    · intro tokens index v j h; simp [parseTokens] at h
    · intro tokens index acc v j h; simp [parseArrayLoop] at h
    · intro tokens index m v j h; simp [parseObjectLoop] at h
  | succ f ih =>
    obtain ⟨ihT, ihA, ihO⟩ := ih
    refine ⟨?_, ?_, ?_⟩
    · -- parse_tokens
      intro tokens index v j h
      simp only [parseTokens] at h
      split at h
      · simp at h
      · rename_i t heq
        have hidx : index < tokens.length := getElemSomeLt _ _ _ heq
        split at h
        · -- Null
          simp at h; obtain ⟨hv, hj⟩ := h
          exact ⟨by omega, by omega, by simp only [finalCursorSpec, heq]; omega⟩
        · -- False
          simp at h; obtain ⟨hv, hj⟩ := h
          exact ⟨by omega, by omega, by simp only [finalCursorSpec, heq]; omega⟩
        · -- True
          simp at h; obtain ⟨hv, hj⟩ := h
          exact ⟨by omega, by omega, by simp only [finalCursorSpec, heq]; omega⟩
        · -- Number
          simp at h; obtain ⟨hv, hj⟩ := h
          exact ⟨by omega, by omega, by simp only [finalCursorSpec, heq]; omega⟩
        · -- String
          split at h
          · simp at h; obtain ⟨hv, hj⟩ := h
            exact ⟨by omega, by omega, by simp only [finalCursorSpec, heq]; omega⟩
          · simp at h
          · simp at h
        · -- LeftBracket
          obtain ⟨h1, h2, h3⟩ := ihA tokens index [] v j h
          exact ⟨by omega, h2, by simp only [finalCursorSpec, heq]; exact h3⟩
        · -- LeftBrace
          obtain ⟨h1, h2, h3⟩ := ihO tokens index [] v j h
          exact ⟨by omega, h2, by simp only [finalCursorSpec, heq]; exact h3⟩
        · -- catch-all: todo!() panic
          simp at h
    · -- parse_array loop
      intro tokens index acc v j h
      simp only [parseArrayLoop] at h
      split at h
      · simp at h
      · rename_i t heq
        have hidx : index + 1 < tokens.length := getElemSomeLt _ _ _ heq
        split at h
        · -- immediate RightBracket
          rename_i hrb
          simp at h; obtain ⟨hv, hj⟩ := h
          refine ⟨by omega, by omega, ?_⟩
          have : j - 1 = index + 1 := by omega
          rw [this, heq, hrb]
        · -- parse one element
          rename_i hrb
          split at h
          · rename_i v0 j0 h2
            obtain ⟨hb1, hb2, _⟩ := ihT tokens (index + 1) v0 j0 h2
            split at h
            · simp at h
            · rename_i t2 h3
              have hj0 : j0 < tokens.length := getElemSomeLt _ _ _ h3
              split at h
              · -- Comma: next iteration
                obtain ⟨hc1, hc2, hc3⟩ := ihA tokens j0 (acc ++ [v0]) v j h
                exact ⟨by omega, hc2, hc3⟩
              · -- RightBracket: done
                simp at h; obtain ⟨hv, hj⟩ := h
                refine ⟨by omega, by omega, ?_⟩
                have : j - 1 = j0 := by omega
                rw [this, h3]
              · simp at h
          · simp at h
          · simp at h
    · -- parse_object loop
      intro tokens index m v j h
      simp only [parseObjectLoop] at h
      split at h
      · simp at h
      · rename_i t heq
        have hidx : index + 1 < tokens.length := getElemSomeLt _ _ _ heq
        split at h
        · -- immediate RightBrace
          rename_i hrb
          simp at h; obtain ⟨hv, hj⟩ := h
          refine ⟨by omega, by omega, ?_⟩
          have : j - 1 = index + 1 := by omega
          rw [this, heq, hrb]
        · -- key, colon, value
          rename_i hrb
          split at h
          · rename_i key
            split at h
            · simp at h
            · rename_i t2 h2
              split at h
              · rename_i hcolon
                split at h
                · rename_i v0 j0 h3
                  obtain ⟨hb1, hb2, _⟩ := ihT tokens (index + 3) v0 j0 h3
                  split at h
                  · simp at h
                  · rename_i t3 h4
                    have hj0 : j0 < tokens.length := getElemSomeLt _ _ _ h4
                    split at h
                    · -- Comma: next iteration
                      obtain ⟨hc1, hc2, hc3⟩ := ihO tokens j0 (insertKV m key v0) v j h
                      exact ⟨by omega, hc2, hc3⟩
                    · -- RightBrace: done
                      simp at h; obtain ⟨hv, hj⟩ := h
                      refine ⟨by omega, by omega, ?_⟩
                      have : j - 1 = j0 := by omega
                      rw [this, h4]
                    · simp at h
                · simp at h
                · simp at h
              · simp at h
          · simp at h

/-- C7: whenever `parse_tokens` returns a value, the cursor is left strictly
past its starting point, within bounds, and exactly one past the last token
the call consumed: one past the literal/number/string token itself, and one
past the closing `]` or `}` for arrays and objects, so a recursive caller
resumes at the correct place. -/
theorem parse_tokens_final_cursor :
    ∀ fuel tokens index v j, parseTokens fuel tokens index = .ok (v, j) →
      index < j ∧ j ≤ tokens.length ∧ finalCursorSpec tokens index j :=
  fun fuel => (parseCursorAux fuel).1

/-- Closed instantiation of C7's theorem at the one-token sequence `null`. -/
theorem parse_tokens_final_cursor_witness :
    0 < 1 ∧ 1 ≤ [Token.null].length ∧ finalCursorSpec [Token.null] 0 1 :=
  parse_tokens_final_cursor 2 [Token.null] 0 .null 1 (by rfl)

/-- Looking up a key after an overwriting insert: the inserted key maps to
the new value, every other key is unaffected. -/
theorem lookupKV_insertKV (m : List (List Char × Value)) (k q : List Char) (v : Value) :
    lookupKV (insertKV m k v) q = if q = k then some v else lookupKV m q := by
  induction m with
  | nil =>
    by_cases h : q = k
    · simp [insertKV, lookupKV, h]
    · simp [insertKV, lookupKV, h, Ne.symm h]
  | cons p rest ih =>
    obtain ⟨k', v'⟩ := p
    by_cases hk : k' = k
    · subst hk
      by_cases hq : q = k'
      · simp [insertKV, lookupKV, hq]
      · simp [insertKV, lookupKV, hq, Ne.symm hq]
    · by_cases hq : k' = q
      · have hqk : ¬q = k := fun hh => hk (hq.trans hh)
        simp [insertKV, lookupKV, hk, hq, hqk]
      · simp [insertKV, lookupKV, hk, hq, ih]

/-- Folding a list of bindings into a map with overwriting inserts realizes
the last-write-wins policy: a key bound somewhere in the list ends up at its
last bound value, a key bound nowhere keeps its prior binding. -/
theorem lookupKV_foldl_insertKV (ps : List (List Char × Value))
    (m : List (List Char × Value)) (k : List Char) :
    lookupKV (ps.foldl (fun acc p => insertKV acc p.1 p.2) m) k =
      match lastValue ps k with
      | some v => some v
      | none => lookupKV m k := by
  induction ps generalizing m with
  | nil => simp [lastValue]
  | cons p rest ih =>
    obtain ⟨k', v'⟩ := p
    simp only [List.foldl_cons, ih, lastValue]
    cases hrest : lastValue rest k with
    | some v => simp
    | none =>
      by_cases hk : k' = k
      · subst hk; simp [lookupKV_insertKV]
      · simp [lookupKV_insertKV, hk, Ne.symm hk]

/-- `parse_object`'s loop is the fold of the overwriting insert over the
source-ordered bindings extracted by `objectBindings`. -/
theorem parseObjectLoop_eq_foldl : ∀ fuel tokens index ps j m,
    objectBindings fuel tokens index = .ok (ps, j) →
    parseObjectLoop fuel tokens index m =
      .ok (.object (ps.foldl (fun acc p => insertKV acc p.1 p.2) m), j) := by
  intro fuel
  induction fuel with
  | zero => intro tokens index ps j m h; simp [objectBindings] at h
  | succ f ih =>
    intro tokens index ps j m h
    simp only [objectBindings] at h
    split at h
    · simp at h
    · rename_i t heq
      split at h
      · -- immediate RightBrace
        rename_i hrb
        simp at h; obtain ⟨hps, hj⟩ := h
        subst hps; subst hj
        simp [parseObjectLoop, heq, hrb]
      · rename_i hrb
        split at h
        · -- key is a string token
          rename_i key
          split at h
          · simp at h
          · rename_i t2 h2
            split at h
            · rename_i hcolon
              split at h
              · rename_i v0 j0 h3
                split at h
                · simp at h
                · rename_i t3 h4
                  split at h
                  · -- Comma: recurse
                    split at h
                    · rename_i ps' j2 h5
                      simp at h; obtain ⟨hps, hj⟩ := h
                      subst hps; subst hj
                      simp only [parseObjectLoop, heq, if_neg hrb, h2, if_pos hcolon,
                        h3, h4]
                      rw [ih tokens j0 ps' j2 (insertKV m key v0) h5]
                      simp
                    · simp at h
                    · simp at h
                  · -- RightBrace: last binding
                    simp at h; obtain ⟨hps, hj⟩ := h
                    subst hps; subst hj
                    simp only [parseObjectLoop, heq, if_neg hrb, h2, if_pos hcolon,
                      h3, h4]
                    simp
                  · simp at h
              · simp at h
              · simp at h
            · simp at h
        · simp at h

/-- C8: for every well-formed object body (one whose source-ordered bindings
`objectBindings` extracts successfully), even when a key occurs more than
once, `parse_object` succeeds and its mapping associates the key with the
last value bound to it in source order. -/
theorem object_duplicate_keys_last_write_wins :
    ∀ fuel tokens index ps j k v,
      objectBindings fuel tokens index = .ok (ps, j) →
      lastValue ps k = some v →
      2 ≤ (ps.filter (fun p => decide (p.1 = k))).length →
      parseObjectLoop fuel tokens index [] =
        .ok (.object (ps.foldl (fun acc p => insertKV acc p.1 p.2) []), j) ∧
      lookupKV (ps.foldl (fun acc p => insertKV acc p.1 p.2) []) k = some v := by
  intro fuel tokens index ps j k v h hlast hdup
  refine ⟨parseObjectLoop_eq_foldl fuel tokens index ps j [] h, ?_⟩
  rw [lookupKV_foldl_insertKV, hlast]

/-- Closed instantiation of C8's theorem on the token sequence of an object
that binds the key `a` twice. -/
theorem object_duplicate_keys_last_write_wins_witness :
    parseObjectLoop 3
      [Token.leftBrace, Token.string ['a'], Token.colon, Token.number 1, Token.comma,
        Token.string ['a'], Token.colon, Token.number 2, Token.rightBrace] 0 [] =
      .ok (.object [(['a'], Value.number 2)], 9) ∧
    lookupKV [(['a'], Value.number 2)] ['a'] = some (Value.number 2) :=
  object_duplicate_keys_last_write_wins 3
    [Token.leftBrace, Token.string ['a'], Token.colon, Token.number 1, Token.comma,
      Token.string ['a'], Token.colon, Token.number 2, Token.rightBrace] 0
    [(['a'], Value.number 1), (['a'], Value.number 2)] 9 ['a'] (Value.number 2)
    (by rfl) (by rfl) (by decide)

/-- The raw content `specScanString` returns is copied verbatim from the
input: it is the prefix of the scanned characters of its own length. -/
theorem specScanString_take : ∀ (cs : List Char) (esc : Bool) (s : List Char),
    specScanString cs esc = some s → cs.take s.length = s := by
  intro cs
  induction cs with
  | nil => intro esc s h; simp [specScanString] at h
  | cons c rest ih =>
    intro esc s h
    simp only [specScanString] at h
    by_cases hesc : esc = Bool.true
    · subst hesc
      simp only [if_true] at h
      cases hs : specScanString rest Bool.false with
      | none => rw [hs] at h; simp at h
      | some s' =>
        rw [hs] at h; simp at h
        subst h
        simp [ih Bool.false s' hs]
    · have hesc' : esc = Bool.false := by cases esc <;> simp_all
      subst hesc'
      simp only [Bool.false_eq_true, if_false] at h
      by_cases hq : c = '"'
      · rw [if_pos hq] at h
        simp at h; subst h; simp
      · rw [if_neg hq] at h
        by_cases hb : c = '\\'
        · rw [if_pos hb] at h
          cases hs : specScanString rest Bool.true with
          | none => rw [hs] at h; simp at h
          | some s' =>
            rw [hs] at h; simp at h
            subst h
            simp [ih Bool.true s' hs]
        · rw [if_neg hb] at h
          cases hs : specScanString rest Bool.false with
          | none => rw [hs] at h; simp at h
          | some s' =>
            rw [hs] at h; simp at h
            subst h
            simp [ih Bool.false s' hs]

/-- The loop of `tokenize_string` agrees with the spec-side scan
`specScanString` of the characters after the current index: no unescaped
closing quote means `UnclosedQuotes`, otherwise the token carries the scanned
raw content and the final index sits on the closing quote. -/
theorem tokenizeStringLoop_spec : ∀ (rem : List Char) (fuel : Nat) (chars : List Char)
    (index : Nat) (acc : List Char) (esc : Bool),
    chars.drop (index + 1) = rem → rem.length < fuel →
    tokenizeStringLoop fuel chars index acc esc =
      (match specScanString rem esc with
       | none => .err .unclosedQuotes
       | some s => .ok (.string (acc ++ s), index + 1 + s.length)) := by
  intro rem
  induction rem with
  | nil =>
    intro fuel chars index acc esc hdrop hlen
    obtain ⟨f, rfl⟩ : ∃ f, fuel = f + 1 := ⟨fuel - 1, by omega⟩
    have hle : chars.length ≤ index + 1 := List.drop_eq_nil_iff.mp hdrop
    have hnone : chars[index + 1]? = none := List.getElem?_eq_none hle
    simp [tokenizeStringLoop, hnone, specScanString]
  | cons c rest ih =>
    intro fuel chars index acc esc hdrop hlen
    obtain ⟨f, rfl⟩ : ∃ f, fuel = f + 1 := ⟨fuel - 1, by omega⟩
    have hlen' : rest.length < f := by simp at hlen; omega
    have hsome : chars[index + 1]? = some c := by
      have h0 := List.getElem?_drop chars (index + 1) 0
      rw [hdrop] at h0
      simpa using h0.symm
    have hnext : chars.drop (index + 1 + 1) = rest := by
      have h1 := List.tail_drop chars (index + 1)
      rw [hdrop] at h1
      simpa using h1.symm
    cases esc with
    | true =>
      have hstep : tokenizeStringLoop (f + 1) chars index acc Bool.true =
          tokenizeStringLoop f chars (index + 1) (acc ++ [c]) Bool.false := by
        simp [tokenizeStringLoop, hsome]
      rw [hstep, ih f chars (index + 1) (acc ++ [c]) Bool.false hnext hlen']
      simp only [specScanString, if_true]
      cases hs : specScanString rest Bool.false with
      | none => simp [hs]
      | some s => simp [hs]; omega
    | false =>
      by_cases hq : c = '"'
      · have hstep : tokenizeStringLoop (f + 1) chars index acc Bool.false =
            .ok (.string acc, index + 1) := by
          simp [tokenizeStringLoop, hsome, hq]
        rw [hstep]
        simp [specScanString, hq]
      · by_cases hb : c = '\\'
        · have hstep : tokenizeStringLoop (f + 1) chars index acc Bool.false =
              tokenizeStringLoop f chars (index + 1) (acc ++ [c]) Bool.true := by
            simp [tokenizeStringLoop, hsome, hq, hb]
          rw [hstep, ih f chars (index + 1) (acc ++ [c]) Bool.true hnext hlen']
          simp only [specScanString]
          cases hs : specScanString rest Bool.true with
          | none => simp [hs, hq, hb]
          | some s => simp [hs, hq, hb]; omega
        · have hstep : tokenizeStringLoop (f + 1) chars index acc Bool.false =
              tokenizeStringLoop f chars (index + 1) (acc ++ [c]) Bool.false := by
            simp [tokenizeStringLoop, hsome, hq, hb]
          rw [hstep, ih f chars (index + 1) (acc ++ [c]) Bool.false hnext hlen']
          simp only [specScanString]
          cases hs : specScanString rest Bool.false with
          | none => simp [hs, hq, hb]
          | some s => simp [hs, hq, hb]; omega

/-- C9: `tokenize_string` returns `UnclosedQuotes` exactly when the input
ends before an unescaped closing quote; otherwise it emits a string token
whose raw text is the literal slice between the quotes, copied verbatim with
escapes un-interpreted (the slice is a prefix of the remaining characters,
and an escaped quote does not terminate the scan, as described by
`specScanString`), leaving the index on the closing quote. -/
theorem tokenize_string_unclosed_iff :
    ∀ chars index,
      (tokenizeString chars index = .err .unclosedQuotes ↔
        specScanString (chars.drop (index + 1)) .false = none) ∧
      (∀ s, specScanString (chars.drop (index + 1)) .false = some s →
        tokenizeString chars index = .ok (.string s, index + 1 + s.length) ∧
        (chars.drop (index + 1)).take s.length = s) := by
  intro chars index
  have hmain := tokenizeStringLoop_spec (chars.drop (index + 1)) (chars.length + 1)
    chars index [] .false rfl (by simp; omega)
  constructor
  · constructor
    · intro h
      cases hs : specScanString (chars.drop (index + 1)) Bool.false with
      | none => rfl
      | some s =>
        rw [tokenizeString, hmain, hs] at h
        simp at h
    · intro h
      rw [tokenizeString, hmain, h]
  · intro s hs
    refine ⟨?_, specScanString_take _ _ _ hs⟩
    rw [tokenizeString, hmain, hs]
    simp

/-- Closed instantiation of C9's theorem on the input `"a"` with the scanner
entered at the opening quote. -/
theorem tokenize_string_unclosed_iff_witness :
    tokenizeString ['"', 'a', '"'] 0 = .ok (.string ['a'], 2) ∧
    (['"', 'a', '"'].drop 1).take 1 = ['a'] :=
  (tokenize_string_unclosed_iff ['"', 'a', '"'] 0).2 ['a'] (by rfl)
